import Mathlib

/-!
Verification of the Illuminator Central billing processor
(`billing_processor.py`, with its caller `streamlit_app.py`).

Shallow embedding conventions:
* Timestamps are rational numbers of seconds since an arbitrary epoch;
  `pandas` datetime subtraction `(a - b).total_seconds() / 60` becomes
  `(a - b) / 60` on rationals.
* Python floats are modelled by exact rationals.  The builtin `round`
  (banker's rounding, half to even) is `pyRound`; `round(x, 2)` is `round2`.
* A float that is NaN is modelled as `none : Option ℚ`; arithmetic on
  possibly-NaN values propagates `none` (`nadd`, `nsum`, `nround2`).
* A pandas column that may be absent is an outer `Option`: the field
  `costPerKwh : Option (Option ℚ)` is `none` when the `Cost/kWh` column is
  absent from the file, `some none` when the cell failed numeric coercion
  (NaN), and `some (some r)` when the cell parsed to `r`.
* Python dicts used as configuration are association lists looked up with
  `alistGet` (first match; dict keys are unique so this is equivalent).
-/

/-- Python `round` on a float: round half to even (banker's rounding). -/
def pyRound (q : ℚ) : ℤ :=
  let f := ⌊q⌋
  let r := q - f
  if r < 1/2 then f
  else if 1/2 < r then f + 1
  else if 2 ∣ f then f else f + 1

/-- Python `round(x, 2)`: round to two decimal places. -/
def round2 (q : ℚ) : ℚ := (pyRound (q * 100) : ℚ) / 100

/-- Addition of possibly-NaN floats: NaN propagates. -/
def nadd : Option ℚ → Option ℚ → Option ℚ
  | some a, some b => some (a + b)
  | _, _ => none

/-- Sum of a list of possibly-NaN floats, starting from `0`. -/
def nsum (l : List (Option ℚ)) : Option ℚ := l.foldr nadd (some 0)

/-- `round(x, 2)` lifted to possibly-NaN floats. -/
def nround2 : Option ℚ → Option ℚ
  | none => none
  | some q => some (round2 q)

/-- First-match lookup in an association list (a Python dict). -/
def alistGet {α : Type} : List (String × α) → String → Option α
  | [], _ => none
  | p :: ps, s => if p.1 = s then some p.2 else alistGet ps s

/-- Python `str.strip(chars)`: drop the given characters from both ends. -/
def stripChars (cs : List Char) (s : String) : String :=
  ⟨((s.data.dropWhile (cs.contains ·)).reverse.dropWhile (cs.contains ·)).reverse⟩

/-- Python `str.strip()` with no argument: drop surrounding whitespace.
Used only to state what the specification describes; the source strips
hyphens, not whitespace. -/
def specTrimWhitespace (s : String) : String :=
  ⟨((s.data.dropWhile Char.isWhitespace).reverse.dropWhile Char.isWhitespace).reverse⟩

/-- Value of a decimal digit character. -/
def digitVal (c : Char) : Option ℕ :=
  if c.isDigit then some (c.toNat - 48) else none

/-- Parse a nonempty all-digit string to a natural number. -/
def parseDigits (cs : List Char) : Option ℕ :=
  if cs.isEmpty then none
  else cs.foldl (fun acc c =>
    match acc, digitVal c with
    | some n, some d => some (n * 10 + d)
    | _, _ => none) (some 0)

/-- Parse an unsigned decimal literal `digits[.digits]` (either part may be
empty but not both), as accepted by `pd.to_numeric` for plain decimals. -/
def parseUnsigned (cs : List Char) : Option ℚ :=
  let ip := cs.takeWhile (· ≠ '.')
  match cs.dropWhile (· ≠ '.') with
  | [] => (parseDigits ip).map (fun n => (n : ℚ))
  | _ :: frac =>
    if frac.any (· = '.') then none
    else if ip.isEmpty && frac.isEmpty then none
    else
      match (if ip.isEmpty then some 0 else parseDigits ip),
            (if frac.isEmpty then some 0 else parseDigits frac) with
      | some i, some f => some ((i : ℚ) + (f : ℚ) / ((10 : ℚ) ^ frac.length))
      | _, _ => none

/-- Parse a signed decimal literal. -/
def parseDecimal (cs : List Char) : Option ℚ :=
  match cs with
  | '-' :: rest => (parseUnsigned rest).map (fun q => -q)
  | '+' :: rest => parseUnsigned rest
  | _ => parseUnsigned cs

/-- `df['Cost/kWh'].astype(str).str.replace('$','')` followed by
`pd.to_numeric(..., errors='coerce')`: remove every dollar sign, then coerce;
an unparseable cell becomes NaN (`none`). -/
def coerceRate (s : String) : Option ℚ :=
  parseDecimal (s.data.filter (· ≠ '$'))

/-- One redundant period marked by the overlap resolver
(Python dict `{'start': .., 'end': .., 'reason': ..}`). -/
structure Period where
  start : ℚ
  stop : ℚ
  reason : String
  deriving DecidableEq

/-- One row of the parsed usage table (a record of
`df.to_dict('records')` after `parse_illuminator_csv`). -/
structure Event where
  club : String
  facility : String
  lighting : String
  scenario : String
  turnOn : ℚ
  turnOff : ℚ
  ratedPowerKw : ℚ
  costPerKwh : Option (Option ℚ)
  redundantPeriods : List Period
  deriving DecidableEq

/-- `df['Date'] = df['Turn on'].dt.date`: the calendar day of the
turn-on timestamp, as a day index. -/
def dateOf (e : Event) : ℤ := ⌊e.turnOn / 86400⌋

/-- The grouping key of `df.groupby(['Date', 'Club'])`. -/
def rowKey (e : Event) : ℤ × String := (dateOf e, e.club)

/-- Included-scenario list of a composite rule.  In the source the rule value
is either a dict holding an `includes` list or a bare list; both shapes
normalize to the list of included scenario keys, and a scenario absent from
`composite_rules` behaves as an empty list. -/
def includesOf (rules : List (String × List String)) (s : String) : List String :=
  (alistGet rules s).getD []

/-- The redundant period that superseding event `e` contributes to event `o`
in `detect_overlapping_scenarios`, if any: `o` must be in `e`'s includes list
and the intervals must strictly overlap. -/
def contribution (rules : List (String × List String)) (e o : Event) : Option Period :=
  if o.scenario ∈ includesOf rules e.scenario then
    let ovStart := max e.turnOn o.turnOn
    let ovEnd := min e.turnOff o.turnOff
    if ovStart < ovEnd then some ⟨ovStart, ovEnd, "Included in " ++ e.scenario⟩
    else none
  else none

/-- All periods appended to the event at position `j` (here `o`), scanning
the whole group `es` from position `i`, skipping the self-comparison. -/
def contribsGo (rules : List (String × List String)) (j : ℕ) (o : Event) :
    List Event → ℕ → List Period
  | [], _ => []
  | e :: es, i =>
    (if i = j then [] else (contribution rules e o).toList) ++
      contribsGo rules j o es (i + 1)

/-- Append to event `o` (at position `j` of group `es`) every redundant
period contributed by the other events of the group. -/
def markEvent (rules : List (String × List String)) (es : List Event)
    (j : ℕ) (o : Event) : Event :=
  { o with redundantPeriods := o.redundantPeriods ++ contribsGo rules j o es 0 }

/-- Walk the group, annotating each event in turn. -/
def detectGo (rules : List (String × List String)) (es : List Event) :
    List Event → ℕ → List Event
  | [], _ => []
  | o :: os, j => markEvent rules es j o :: detectGo rules es os (j + 1)

/-- `detect_overlapping_scenarios`: for every event whose scenario has a
composite rule, mark the strict overlaps with every included event as
redundant periods of the included event.  The source appends to the event
dicts in place while iterating, but only ever reads the scenario and the
two timestamps of other events, which are never written, so this
functional formulation computes the same final list. -/
def detect_overlapping_scenarios (rules : List (String × List String))
    (es : List Event) : List Event :=
  detectGo rules es es 0

/-- Zero-padded two-digit decimal rendering. -/
def two (n : ℕ) : String := if n < 10 then "0" ++ toString n else toString n

/-- `strftime('%H:%M')` of a timestamp in seconds since the epoch. -/
def fmtHM (t : ℚ) : String :=
  let sod := (⌊t⌋ % 86400).toNat
  two (sod / 3600) ++ ":" ++ two (sod % 3600 / 60)

/-- Total event duration in (fractional) minutes:
`(event['Turn off'] - event['Turn on']).total_seconds() / 60`. -/
def totalDurationMin (e : Event) : ℚ := (e.turnOff - e.turnOn) / 60

/-- Duration of one redundant period in (fractional) minutes. -/
def periodMin (p : Period) : ℚ := (p.stop - p.start) / 60

/-- Sum of the redundant periods' durations in minutes. -/
def redundantMin (e : Event) : ℚ := (e.redundantPeriods.map periodMin).sum

/-- The exclusion note recorded for one redundant period. -/
def noteOf (p : Period) : String :=
  fmtHM p.start ++ "-" ++ fmtHM p.stop ++ ": " ++ p.reason

/-- `calculate_billable_duration`: billable minutes, redundant minutes and
exclusion notes.  With no redundant periods the full duration is billed;
otherwise the summed redundant duration is subtracted (without clamping)
and both figures are rounded to whole minutes on return. -/
def calculate_billable_duration (e : Event) : ℤ × ℤ × List String :=
  if e.redundantPeriods = [] then (pyRound (totalDurationMin e), 0, [])
  else
    (pyRound (totalDurationMin e - redundantMin e),
     pyRound (redundantMin e),
     e.redundantPeriods.map noteOf)

/-- The required columns of an Illuminator Central CSV export. -/
def required_columns : List String :=
  ["Club", "Facility", "Lighting", "Turn on", "Turn off", "Rated power (kW)"]

/-- The validation failures `parse_illuminator_csv` can raise before row
normalization: the unreadable-file wrapper, the missing-required-columns
message, and the empty-file message. -/
inductive ParseErr where
  | readError
  | missingColumns (missing : List String)
  | emptyFile
  deriving DecidableEq

/-- The reading and validation stage of `parse_illuminator_csv`, on a file
given as physical lines of cells.  `pd.read_csv(uploaded_file, skiprows=1)`
discards the first physical line and reads column names from the next one;
a file with no line after the skipped one raises inside `read_csv` and is
reported as the unreadable-file error.  Then any required column missing
from the header aborts with the missing-columns error, and a table with no
data rows aborts with the empty-file error. -/
def readAndValidate (lines : List (List String)) :
    Except ParseErr (List String × List (List String)) :=
  match lines with
  | [] => .error .readError
  | [_] => .error .readError
  | _ :: header :: rows =>
    let missing := required_columns.filter (fun c => ¬ header.contains c)
    if missing ≠ [] then .error (.missingColumns missing)
    else if rows.length = 0 then .error .emptyFile
    else .ok (header, rows)

/-- The row normalization of `parse_illuminator_csv` (lines 86-93): derive
the scenario key `Facility + ' - ' + Lighting.str.strip('-')`, and coerce
the optional `Cost/kWh` cell (`none` when the column is absent from the
file).  Timestamps arrive already parsed, as seconds since the epoch. -/
def normalizeRow (club facility lighting : String) (turnOn turnOff power : ℚ)
    (rateCell : Option String) : Event :=
  { club := club
    facility := facility
    lighting := lighting
    scenario := facility ++ " - " ++ stripChars ['-'] lighting
    turnOn := turnOn
    turnOff := turnOff
    ratedPowerKw := power
    costPerKwh := rateCell.map coerceRate
    redundantPeriods := [] }

/-- One entry of the unmapped-scenario report
(`{'scenario': .., 'facility': .., 'count': ..}`). -/
structure GapEntry where
  scenario : String
  facility : String
  count : ℕ
  deriving DecidableEq

/-- Record one more occurrence of an unmapped scenario: bump the count of
its existing entry, or append a fresh entry (first-seen facility, count 1)
preserving insertion order, exactly as the Python dict does. -/
def bump : List GapEntry → String → String → List GapEntry
  | [], scen, fac => [⟨scen, fac, 1⟩]
  | g :: gs, scen, fac =>
    if g.scenario = scen then ⟨g.scenario, g.facility, g.count + 1⟩ :: gs
    else g :: bump gs scen fac

/-- One step of the row loop in `find_unmapped_scenarios`: rows whose
scenario is in the configured mapping are skipped. -/
def tallyStep (mapping : List (String × String)) (acc : List GapEntry)
    (e : Event) : List GapEntry :=
  if alistGet mapping e.scenario = none then bump acc e.scenario e.facility
  else acc

/-- Stable insertion of an entry into a count-descending list: pass entries
with a strictly larger count, stop at the first entry whose count is not
larger.  Folding this over the list from the right computes exactly the
stable descending sort `sorted(..., key=count, reverse=True)`. -/
def insertDesc (a : GapEntry) : List GapEntry → List GapEntry
  | [] => [a]
  | b :: bs => if a.count < b.count then b :: insertDesc a bs else a :: b :: bs

/-- Python `sorted(entries, key=lambda x: x['count'], reverse=True)`
(a stable descending sort). -/
def sortDesc (l : List GapEntry) : List GapEntry := l.foldr insertDesc []

/-- `find_unmapped_scenarios`: tally the rows whose scenario key is absent
from the scenario-to-area mapping, then sort by descending count.  The
`pd.notna(scenario)` guard of the source is outside this embedding:
scenario keys are total strings here, never null. -/
def find_unmapped_scenarios (mapping : List (String × String))
    (df : List Event) : List GapEntry :=
  sortDesc (df.foldl (tallyStep mapping) [])

/-- Area bucket of an event in `generate_daily_summaries`:
`self.scenario_to_area.get(event['Scenario'], event['Facility'])`. -/
def areaOf (mapping : List (String × String)) (e : Event) : String :=
  (alistGet mapping e.scenario).getD e.facility

/-- Three-tier resolution of the electricity rate in
`create_combined_summary`: a caller-supplied override wins; otherwise
`event.get('Cost/kWh', 0.263)` returns the fixed default only when the
`Cost/kWh` key is absent, and returns the stored value (possibly NaN)
when the column exists. -/
def effectiveRate (override : Option ℚ) (e : Event) : Option ℚ :=
  match override with
  | some r => some r
  | none =>
    match e.costPerKwh with
    | none => some (263/1000)
    | some v => v

/-- Per-event cost of `create_combined_summary` (lines 292-303):
`round(billable_minutes / 60 * ratedPowerKw * effective_rate, 2)`,
propagating NaN. -/
def perEventCost (override : Option ℚ) (e : Event) : Option ℚ :=
  match effectiveRate override e with
  | none => none
  | some r =>
    some (round2 ((((calculate_billable_duration e).1 : ℚ) / 60) *
      e.ratedPowerKw * r))

/-- Earliest turn-on among the events of a bucket (the running strict-min
update of the source, seeded by the first event). -/
def earliestStart : List Event → ℚ
  | [] => 0
  | e :: es => es.foldl (fun a x => min a x.turnOn) e.turnOn

/-- Latest turn-off among the events of a bucket. -/
def latestEnd : List Event → ℚ
  | [] => 0
  | e :: es => es.foldl (fun a x => max a x.turnOff) e.turnOff

/-- One output record of `create_combined_summary`.  The two presentation
strings (`Detailed Summary`, `Short Summary`) are display glue and are not
modelled; `Start Time` and `End Time` are kept as raw timestamps (the
source formats them with `strftime('%H:%M')` at output). -/
structure Summary where
  date : ℤ
  club : String
  area : String
  startTime : ℚ
  endTime : ℚ
  duration : ℤ
  totalCost : Option ℚ
  deriving DecidableEq

/-- `create_combined_summary`: one invoice line per date/club/area bucket;
the duration is the sum of the rounded per-event billable minutes and the
total cost is the rounded sum of the rounded per-event costs. -/
def create_combined_summary (override : Option ℚ) (date : ℤ)
    (club area : String) (events : List Event) : Summary :=
  { date := date
    club := club
    area := area
    startTime := earliestStart events
    endTime := latestEnd events
    duration := (events.map (fun e => (calculate_billable_duration e).1)).sum
    totalCost := nround2 (nsum (events.map (perEventCost override))) }

/-- Deduplicate keeping first occurrences, tracking already-seen keys. -/
def firstDedupAux {α : Type} [DecidableEq α] : List α → List α → List α
  | _, [] => []
  | seen, a :: l =>
    if a ∈ seen then firstDedupAux seen l
    else a :: firstDedupAux (a :: seen) l

/-- The distinct values of a list in first-occurrence order, as a Python
dict (or `defaultdict`) enumerates its insertion-ordered keys. -/
def firstDedup {α : Type} [DecidableEq α] (l : List α) : List α :=
  firstDedupAux [] l

/-- `generate_daily_summaries`: group the table by (date, club), resolve
overlaps inside each group, bucket the resolved events by billable area
(falling back to the facility for unmapped scenarios), and emit one
combined summary per bucket.  `pandas` enumerates the groups in sorted key
order; the properties proved below do not depend on the order in which
groups are emitted, so groups are enumerated in first-occurrence order. -/
def generate_daily_summaries (override : Option ℚ)
    (mapping : List (String × String)) (rules : List (String × List String))
    (df : List Event) : List Summary :=
  (firstDedup (df.map rowKey)).flatMap (fun k =>
    let events := detect_overlapping_scenarios rules
      (df.filter (fun e => rowKey e = k))
    let areas := firstDedup (events.map (areaOf mapping))
    areas.map (fun a =>
      create_combined_summary override k.1 k.2 a
        (events.filter (fun e => areaOf mapping e = a))))

/-- Every event of the table exactly once, carrying the redundant periods
marked by overlap resolution within its own (date, club) group: the event
population over which the per-event costs of the summaries are computed. -/
def processedEvents (rules : List (String × List String))
    (df : List Event) : List Event :=
  (firstDedup (df.map rowKey)).flatMap (fun k =>
    detect_overlapping_scenarios rules (df.filter (fun e => rowKey e = k)))

/-! ### Arithmetic helper lemmas -/

theorem pyRound_intCast (n : ℤ) : pyRound (n : ℚ) = n := by
  simp [pyRound]

theorem pyRound_neg_of_lt {q : ℚ} (h : q < -(1/2)) : pyRound q < 0 := by
  unfold pyRound
  have hfl : (⌊q⌋ : ℚ) ≤ q := Int.floor_le q
  have hfr : q - ⌊q⌋ < 1 := by
    have := Int.lt_floor_add_one q
    linarith
  by_cases h1 : q - ⌊q⌋ < 1/2
  · simp only [h1, if_true]
    have : (⌊q⌋ : ℚ) < 0 := by linarith
    exact_mod_cast this
  · by_cases h2 : (1:ℚ)/2 < q - ⌊q⌋
    · simp only [h1, if_false, h2, if_true]
      have : (⌊q⌋ : ℚ) + 1 < 0 := by
        have : (⌊q⌋ : ℚ) < -1 := by linarith
        linarith
      have := this
      push_cast at this
      exact_mod_cast this
    · simp only [h1, if_false, h2, if_false]
      have heq : q - ⌊q⌋ = 1/2 := le_antisymm (not_lt.1 h2) (not_lt.1 h1)
      have hf2 : (⌊q⌋ : ℚ) < -1 := by linarith
      have hfz : ⌊q⌋ < -1 := by exact_mod_cast hf2
      by_cases hdvd : 2 ∣ ⌊q⌋
      · simp only [hdvd, if_true]; omega
      · simp only [hdvd, if_false]; omega

theorem round2_hundredth (n : ℤ) : round2 ((n : ℚ) / 100) = (n : ℚ) / 100 := by
  unfold round2
  rw [div_mul_cancel₀ _ (by norm_num : (100:ℚ) ≠ 0), pyRound_intCast]

/-! ### NaN-propagating sums -/

theorem nadd_comm (a b : Option ℚ) : nadd a b = nadd b a := by
  cases a <;> cases b <;> simp [nadd, add_comm]

theorem nadd_assoc (a b c : Option ℚ) :
    nadd (nadd a b) c = nadd a (nadd b c) := by
  cases a <;> cases b <;> cases c <;> simp [nadd, add_assoc]

theorem nadd_left_comm (a b c : Option ℚ) :
    nadd a (nadd b c) = nadd b (nadd a c) := by
  rw [← nadd_assoc, nadd_comm a b, nadd_assoc]

theorem nsum_cons (a : Option ℚ) (l : List (Option ℚ)) :
    nsum (a :: l) = nadd a (nsum l) := rfl

theorem nadd_zero_left (b : Option ℚ) : nadd (some 0) b = b := by
  cases b <;> simp [nadd]

theorem nsum_append (l₁ l₂ : List (Option ℚ)) :
    nsum (l₁ ++ l₂) = nadd (nsum l₁) (nsum l₂) := by
  induction l₁ with
  | nil => rw [List.nil_append]; exact (nadd_zero_left (nsum l₂)).symm
  | cons a l ih =>
    rw [List.cons_append, nsum_cons, nsum_cons, ih, nadd_assoc]

theorem nsum_filter_split (p : α → Bool) (f : α → Option ℚ) (l : List α) :
    nadd (nsum ((l.filter p).map f)) (nsum ((l.filter (fun a => !p a)).map f))
      = nsum (l.map f) := by
  induction l with
  | nil => simp [nsum, nadd]
  | cons x l ih =>
    rcases hp : p x with _ | _
    · rw [List.filter_cons_of_neg (by simp [hp]), List.filter_cons_of_pos (by simp [hp])]
      rw [List.map_cons, nsum_cons, nadd_left_comm, ih, List.map_cons, nsum_cons]
    · rw [List.filter_cons_of_pos hp, List.filter_cons_of_neg (by simp [hp])]
      rw [List.map_cons, nsum_cons, nadd_assoc, ih, List.map_cons, nsum_cons]

theorem nsum_partition {α κ : Type} [DecidableEq κ] (key : α → κ)
    (f : α → Option ℚ) (l : List α) (ks : List κ) (hnd : ks.Nodup)
    (hcov : ∀ x ∈ l, key x ∈ ks) :
    nsum (ks.map (fun k => nsum ((l.filter (fun x => key x = k)).map f)))
      = nsum (l.map f) := by
  induction ks generalizing l with
  | nil =>
    have : l = [] := List.eq_nil_iff_forall_not_mem.2
      (fun x hx => by simpa using hcov x hx)
    subst this; rfl
  | cons k ks ih =>
    rw [List.map_cons, nsum_cons]
    have hstep : ∀ k' ∈ ks,
        (l.filter (fun x => key x = k')).map f
          = ((l.filter (fun x => ¬ (key x = k))).filter
              (fun x => key x = k')).map f := by
      intro k' hk'
      have hkk : k' ≠ k := by
        rintro rfl; exact (List.nodup_cons.1 hnd).1 hk'
      congr 1
      rw [List.filter_filter]
      apply List.filter_congr
      intro x _
      by_cases hx : key x = k'
      · simp [hx, hkk]
      · simp [hx]
    have hrw : (ks.map (fun k' => nsum ((l.filter (fun x => key x = k')).map f)))
        = ks.map (fun k' => nsum (((l.filter (fun x => ¬ (key x = k))).filter
            (fun x => key x = k')).map f)) :=
      List.map_congr_left (fun k' hk' => by rw [hstep k' hk'])
    rw [hrw, ih (l.filter (fun x => ¬ (key x = k))) (List.nodup_cons.1 hnd).2
      (fun x hx => by
        have hx' := List.of_mem_filter hx
        have hmem := List.mem_of_mem_filter hx
        have := hcov x hmem
        simp only [List.mem_cons] at this
        rcases this with h | h
        · exact absurd h (by simpa using hx')
        · exact h)]
    have hfc : (l.filter (fun x => ¬ (key x = k)))
        = l.filter (fun a => !(decide (key a = k))) := by
      apply List.filter_congr; intro x _; simp
    rw [hfc]
    exact nsum_filter_split (fun x => key x = k) f l

/-- A possibly-NaN float that is an integer multiple of one hundredth:
the shape of every per-event cost after `round(_, 2)`. -/
def isHundredth : Option ℚ → Prop
  | none => True
  | some q => ∃ n : ℤ, q = (n : ℚ) / 100

theorem isHundredth_nadd {a b : Option ℚ} (ha : isHundredth a)
    (hb : isHundredth b) : isHundredth (nadd a b) := by
  cases a with
  | none => simp [nadd, isHundredth]
  | some qa =>
    cases b with
    | none => simp [nadd, isHundredth]
    | some qb =>
      obtain ⟨m, hm⟩ := ha
      obtain ⟨n, hn⟩ := hb
      exact ⟨m + n, by push_cast [nadd, hm, hn]; ring⟩

theorem isHundredth_nsum {l : List (Option ℚ)}
    (h : ∀ x ∈ l, isHundredth x) : isHundredth (nsum l) := by
  induction l with
  | nil => exact ⟨0, by norm_num⟩
  | cons a l ih =>
    rw [nsum_cons]
    exact isHundredth_nadd (h a (List.mem_cons_self a l))
      (ih (fun x hx => h x (List.mem_cons_of_mem a hx)))

theorem nround2_isHundredth {v : Option ℚ} (h : isHundredth v) :
    nround2 v = v := by
  cases v with
  | none => rfl
  | some q => obtain ⟨n, hn⟩ := h; simp [nround2, hn, round2_hundredth]

theorem isHundredth_perEventCost (override : Option ℚ) (e : Event) :
    isHundredth (perEventCost override e) := by
  unfold perEventCost
  cases effectiveRate override e with
  | none => trivial
  | some r => exact ⟨pyRound ((((calculate_billable_duration e).1 : ℚ) / 60) *
      e.ratedPowerKw * r * 100), rfl⟩

/-! ### First-occurrence deduplication -/

theorem mem_firstDedupAux {α : Type} [DecidableEq α] (l : List α) :
    ∀ (seen : List α) (x : α),
      x ∈ firstDedupAux seen l ↔ x ∈ l ∧ x ∉ seen := by
  induction l with
  | nil => intro seen x; simp [firstDedupAux]
  | cons a l ih =>
    intro seen x
    by_cases ha : a ∈ seen
    · rw [firstDedupAux, if_pos ha, ih]
      constructor
      · rintro ⟨hx, hs⟩; exact ⟨List.mem_cons_of_mem a hx, hs⟩
      · rintro ⟨hx, hs⟩
        rcases List.mem_cons.1 hx with rfl | hx
        · exact absurd ha hs
        · exact ⟨hx, hs⟩
    · rw [firstDedupAux, if_neg ha]
      constructor
      · intro hx
        rcases List.mem_cons.1 hx with rfl | hx
        · exact ⟨List.mem_cons_self _ _, ha⟩
        · have := (ih (a :: seen) x).1 hx
          exact ⟨List.mem_cons_of_mem a this.1,
            fun hs => this.2 (List.mem_cons_of_mem a hs)⟩
      · rintro ⟨hx, hs⟩
        rcases List.mem_cons.1 hx with rfl | hx
        · exact List.mem_cons_self _ _
        · by_cases hxa : x = a
          · subst hxa; exact List.mem_cons_self _ _
          · exact List.mem_cons_of_mem a ((ih (a :: seen) x).2
              ⟨hx, fun h => by
                rcases List.mem_cons.1 h with h | h
                · exact hxa h
                · exact hs h⟩)

theorem mem_firstDedup {α : Type} [DecidableEq α] {l : List α} {x : α} :
    x ∈ firstDedup l ↔ x ∈ l := by
  rw [firstDedup, mem_firstDedupAux]
  simp

theorem nodup_firstDedupAux {α : Type} [DecidableEq α] (l : List α) :
    ∀ seen : List α, (firstDedupAux seen l).Nodup := by
  induction l with
  | nil => intro seen; simp [firstDedupAux]
  | cons a l ih =>
    intro seen
    by_cases ha : a ∈ seen
    · rw [firstDedupAux, if_pos ha]; exact ih seen
    · rw [firstDedupAux, if_neg ha]
      refine List.nodup_cons.2 ⟨fun hmem => ?_, ih (a :: seen)⟩
      exact ((mem_firstDedupAux l (a :: seen) a).1 hmem).2
        (List.mem_cons_self _ _)

theorem nodup_firstDedup {α : Type} [DecidableEq α] (l : List α) :
    (firstDedup l).Nodup := nodup_firstDedupAux l []

/-! ### Overlap resolver lemmas -/

theorem detectGo_length (rules : List (String × List String)) (es : List Event) :
    ∀ (os : List Event) (n : ℕ), (detectGo rules es os n).length = os.length := by
  intro os
  induction os with
  | nil => intro n; rfl
  | cons o os ih => intro n; simp [detectGo, ih]

theorem detect_length (rules : List (String × List String)) (es : List Event) :
    (detect_overlapping_scenarios rules es).length = es.length :=
  detectGo_length rules es es 0

theorem detectGo_get (rules : List (String × List String)) (es : List Event) :
    ∀ (os : List Event) (n : ℕ) (k : ℕ) (h : k < os.length)
      (h' : k < (detectGo rules es os n).length),
      (detectGo rules es os n).get ⟨k, h'⟩
        = markEvent rules es (n + k) (os.get ⟨k, h⟩) := by
  intro os
  induction os with
  | nil => intro n k h; exact absurd h (by simp)
  | cons o os ih =>
    intro n k h h'
    cases k with
    | zero => simp [detectGo]
    | succ k =>
      have hk : k < os.length := by simpa using h
      have hk' : k < (detectGo rules es os (n + 1)).length := by
        rw [detectGo_length]; exact hk
      show (detectGo rules es os (n + 1)).get ⟨k, hk'⟩ = _
      rw [ih (n + 1) k hk hk']
      congr 1
      omega

theorem detect_get (rules : List (String × List String)) (es : List Event)
    (k : ℕ) (h : k < es.length)
    (h' : k < (detect_overlapping_scenarios rules es).length) :
    (detect_overlapping_scenarios rules es).get ⟨k, h'⟩
      = markEvent rules es k (es.get ⟨k, h⟩) := by
  have := detectGo_get rules es es 0 k h h'
  simpa using this

theorem mem_detectGo {rules : List (String × List String)} {es : List Event}
    {e' : Event} : ∀ {os : List Event} {n : ℕ}, e' ∈ detectGo rules es os n →
      ∃ j o, o ∈ os ∧ e' = markEvent rules es j o := by
  intro os
  induction os with
  | nil => intro n h; simp [detectGo] at h
  | cons o os ih =>
    intro n h
    rcases List.mem_cons.1 h with h | h
    · exact ⟨n, o, List.mem_cons_self _ _, h⟩
    · obtain ⟨j, o', ho', he⟩ := ih h
      exact ⟨j, o', List.mem_cons_of_mem _ ho', he⟩

theorem mem_contribsGo {rules : List (String × List String)} {j : ℕ}
    {o : Event} {p : Period} :
    ∀ {os : List Event} {i : ℕ}, p ∈ contribsGo rules j o os i →
      ∃ e, contribution rules e o = some p := by
  intro os
  induction os with
  | nil => intro i h; simp [contribsGo] at h
  | cons e os ih =>
    intro i h
    rw [contribsGo] at h
    rcases List.mem_append.1 h with h | h
    · by_cases hij : i = j
      · rw [if_pos hij] at h; simp at h
      · rw [if_neg hij] at h
        cases hc : contribution rules e o with
        | none => rw [hc] at h; simp at h
        | some q =>
          rw [hc] at h
          simp only [Option.toList_some, List.mem_singleton] at h
          exact ⟨e, by rw [hc, h]⟩
    · exact ih h

theorem contribution_bounds {rules : List (String × List String)}
    {e o : Event} {p : Period} (h : contribution rules e o = some p) :
    o.turnOn ≤ p.start ∧ p.start < p.stop ∧ p.stop ≤ o.turnOff := by
  unfold contribution at h
  by_cases hmem : o.scenario ∈ includesOf rules e.scenario
  · rw [if_pos hmem] at h
    by_cases hov : max e.turnOn o.turnOn < min e.turnOff o.turnOff
    · rw [if_pos hov] at h
      cases h
      exact ⟨le_max_right _ _, hov, min_le_right _ _⟩
    · rw [if_neg hov] at h; cases h
  · rw [if_neg hmem] at h; cases h

theorem contribution_touching {rules : List (String × List String)}
    {e o : Event} (h : e.turnOff = o.turnOn ∨ o.turnOff = e.turnOn) :
    contribution rules e o = none := by
  unfold contribution
  by_cases hmem : o.scenario ∈ includesOf rules e.scenario
  · rw [if_pos hmem]
    have hno : ¬ max e.turnOn o.turnOn < min e.turnOff o.turnOff := by
      rcases h with h | h
      · intro hlt
        have h1 : min e.turnOff o.turnOff ≤ o.turnOn := by
          rw [← h]; exact min_le_left _ _
        have h2 : o.turnOn ≤ max e.turnOn o.turnOn := le_max_right _ _
        linarith
      · intro hlt
        have h1 : min e.turnOff o.turnOff ≤ e.turnOn := by
          rw [← h]; exact min_le_right _ _
        have h2 : e.turnOn ≤ max e.turnOn o.turnOn := le_max_left _ _
        linarith
    rw [if_neg hno]
  · rw [if_neg hmem]

theorem markEvent_fields (rules : List (String × List String))
    (es : List Event) (j : ℕ) (o : Event) :
    (markEvent rules es j o).scenario = o.scenario
    ∧ (markEvent rules es j o).facility = o.facility
    ∧ (markEvent rules es j o).club = o.club
    ∧ (markEvent rules es j o).turnOn = o.turnOn
    ∧ (markEvent rules es j o).turnOff = o.turnOff := by
  simp [markEvent]

theorem map_areaOf_detectGo (mapping : List (String × String))
    (rules : List (String × List String)) (es : List Event) :
    ∀ (os : List Event) (n : ℕ),
      (detectGo rules es os n).map (areaOf mapping) = os.map (areaOf mapping) := by
  intro os
  induction os with
  | nil => intro n; rfl
  | cons o os ih =>
    intro n
    simp only [detectGo, List.map_cons, ih]
    congr 1

theorem map_areaOf_detect (mapping : List (String × String))
    (rules : List (String × List String)) (es : List Event) :
    (detect_overlapping_scenarios rules es).map (areaOf mapping)
      = es.map (areaOf mapping) :=
  map_areaOf_detectGo mapping rules es es 0

theorem contribsGo_eq_nil {rules : List (String × List String)} {j : ℕ}
    {o : Event} : ∀ (os : List Event) (n : ℕ),
    (∀ (m : ℕ) (h : m < os.length), n + m ≠ j →
      contribution rules (os.get ⟨m, h⟩) o = none) →
    contribsGo rules j o os n = [] := by
  intro os
  induction os with
  | nil => intro n _; rfl
  | cons e os ih =>
    intro n hnone
    rw [contribsGo]
    have htail : contribsGo rules j o os (n + 1) = [] := by
      apply ih
      intro m h hm
      have := hnone (m + 1) (by simpa using Nat.succ_lt_succ h) (by omega)
      simpa using this
    rw [htail, List.append_nil]
    by_cases hnj : n = j
    · rw [if_pos hnj]
    · rw [if_neg hnj]
      have := hnone 0 (by simp) (by omega)
      simp only [List.get] at this
      rw [this]
      rfl

theorem contribsGo_eq_single {rules : List (String × List String)} {j : ℕ}
    {o : Event} {p : Period} {iA : ℕ} :
    ∀ (os : List Event) (n : ℕ),
    n ≤ iA → iA < n + os.length → iA ≠ j →
    (∀ (h : iA - n < os.length),
      contribution rules (os.get ⟨iA - n, h⟩) o = some p) →
    (∀ (m : ℕ) (h : m < os.length), n + m ≠ iA → n + m ≠ j →
      contribution rules (os.get ⟨m, h⟩) o = none) →
    contribsGo rules j o os n = [p] := by
  intro os
  induction os with
  | nil => intro n h1 h2; simp at h2; omega
  | cons e os ih =>
    intro n hle hlt hij hA hN
    rw [contribsGo]
    by_cases hn : n = iA
    · have he : contribution rules e o = some p := by
        have h0 : iA - n < (e :: os).length := by simp; omega
        have hz : iA - n = 0 := by omega
        have hfin : (⟨iA - n, h0⟩ : Fin (e :: os).length)
            = ⟨0, by simp⟩ := Fin.ext hz
        have := hA h0
        rw [hfin] at this
        simpa using this
      have hnj : n ≠ j := by omega
      rw [if_neg hnj, he]
      have htail : contribsGo rules j o os (n + 1) = [] := by
        apply contribsGo_eq_nil
        intro m h hm
        have := hN (m + 1) (by simpa using Nat.succ_lt_succ h) (by omega) (by omega)
        simpa using this
      rw [htail]
      rfl
    · have hhead : (if n = j then ([] : List Period)
          else (contribution rules e o).toList) = [] := by
        by_cases hnj : n = j
        · rw [if_pos hnj]
        · rw [if_neg hnj]
          have := hN 0 (by simp) (by omega) (by omega)
          simp only [List.get] at this
          rw [this]
          rfl
      rw [hhead, List.nil_append]
      apply ih (n + 1) (by omega)
        (by simp only [List.length_cons] at hlt; omega) hij
      · intro h
        have h' : iA - n < (e :: os).length := by
          simp only [List.length_cons]; omega
        have hpos : iA - n = (iA - (n + 1)) + 1 := by omega
        have hfin : (⟨iA - n, h'⟩ : Fin (e :: os).length)
            = ⟨(iA - (n + 1)) + 1, by simpa using Nat.succ_lt_succ h⟩ :=
          Fin.ext hpos
        have := hA h'
        rw [hfin] at this
        simpa using this
      · intro m h hm hj
        have := hN (m + 1) (by simpa using Nat.succ_lt_succ h) (by omega) (by omega)
        simpa using this

/-! ### Mapping-gap detection lemmas -/

/-- Count recorded for scenario `s` in a tally state (0 when absent). -/
def cnt : List GapEntry → String → ℕ
  | [], _ => 0
  | g :: gs, s => if g.scenario = s then g.count else cnt gs s

theorem bump_scenarios (acc : List GapEntry) (s f : String) :
    (bump acc s f).map GapEntry.scenario
      = if s ∈ acc.map GapEntry.scenario
        then acc.map GapEntry.scenario
        else acc.map GapEntry.scenario ++ [s] := by
  induction acc with
  | nil => simp [bump]
  | cons g gs ih =>
    by_cases hg : g.scenario = s
    · rw [bump, if_pos hg]
      simp [hg]
    · rw [bump, if_neg hg]
      simp only [List.map_cons, ih, List.mem_cons]
      by_cases hs : s ∈ gs.map GapEntry.scenario
      · rw [if_pos hs, if_pos (Or.inr hs)]
      · rw [if_neg hs, if_neg (by
          rintro (h | h)
          · exact hg h.symm
          · exact hs h)]
        simp

theorem cnt_bump_self (acc : List GapEntry) (s f : String) :
    cnt (bump acc s f) s = cnt acc s + 1 := by
  induction acc with
  | nil => simp [bump, cnt]
  | cons g gs ih =>
    by_cases hg : g.scenario = s
    · rw [bump, if_pos hg, cnt, if_pos hg, cnt, if_pos hg]
    · rw [bump, if_neg hg, cnt, if_neg hg, cnt, if_neg hg, ih]

theorem cnt_bump_other (acc : List GapEntry) (s f s' : String) (h : s' ≠ s) :
    cnt (bump acc s f) s' = cnt acc s' := by
  induction acc with
  | nil =>
    have hh : cnt (bump [] s f) s' = if s = s' then 1 else 0 := rfl
    rw [hh, if_neg (fun he => h he.symm)]
    rfl
  | cons g gs ih =>
    by_cases hg : g.scenario = s
    · have hne : ¬ g.scenario = s' := fun hh => h (hh.symm.trans hg)
      rw [bump, if_pos hg, cnt, if_neg hne, cnt, if_neg hne]
    · rw [bump, if_neg hg, cnt, cnt]
      by_cases hgs : g.scenario = s'
      · rw [if_pos hgs, if_pos hgs]
      · rw [if_neg hgs, if_neg hgs, ih]

theorem cnt_foldl (mapping : List (String × String)) :
    ∀ (df : List Event) (acc : List GapEntry) (s : String),
      alistGet mapping s = none →
      cnt (df.foldl (tallyStep mapping) acc) s
        = cnt acc s + (df.filter (fun e => e.scenario = s)).length := by
  intro df
  induction df with
  | nil => intro acc s _; simp
  | cons e df ih =>
    intro acc s hs
    rw [List.foldl_cons]
    by_cases hes : e.scenario = s
    · have hstep : tallyStep mapping acc e = bump acc e.scenario e.facility := by
        rw [tallyStep, if_pos (by rw [hes]; exact hs)]
      rw [hstep, ih _ s hs, List.filter_cons_of_pos (by simpa using hes)]
      rw [hes, cnt_bump_self]
      simp only [List.length_cons]
      omega
    · have hcnt : cnt (tallyStep mapping acc e) s = cnt acc s := by
        rw [tallyStep]
        by_cases hu : alistGet mapping e.scenario = none
        · rw [if_pos hu, cnt_bump_other _ _ _ _ (fun hh => hes hh.symm)]
        · rw [if_neg hu]
      rw [ih _ s hs, hcnt, List.filter_cons_of_neg (by simpa using hes)]

theorem cnt_pos_mem : ∀ (l : List GapEntry) (s : String), cnt l s ≠ 0 →
    ∃ g ∈ l, g.scenario = s := by
  intro l
  induction l with
  | nil => intro s h; exact absurd rfl h
  | cons g gs ih =>
    intro s h
    by_cases hg : g.scenario = s
    · exact ⟨g, List.mem_cons_self _ _, hg⟩
    · rw [cnt, if_neg hg] at h
      obtain ⟨g', hg', hs⟩ := ih s h
      exact ⟨g', List.mem_cons_of_mem _ hg', hs⟩

theorem cnt_of_mem : ∀ {l : List GapEntry} {g : GapEntry},
    (l.map GapEntry.scenario).Nodup → g ∈ l → cnt l g.scenario = g.count := by
  intro l
  induction l with
  | nil => intro g _ h; simp at h
  | cons h gs ih =>
    intro g hnd hmem
    rcases List.mem_cons.1 hmem with rfl | hmem
    · rw [cnt, if_pos rfl]
    · have hne : h.scenario ≠ g.scenario := by
        intro heq
        have : g.scenario ∈ gs.map GapEntry.scenario :=
          List.mem_map.2 ⟨g, hmem, rfl⟩
        rw [← heq] at this
        exact (List.nodup_cons.1 (by simpa using hnd)).1 this
      rw [cnt, if_neg hne]
      exact ih (List.nodup_cons.1 (by simpa using hnd)).2 hmem

theorem scenarios_nodup_foldl (mapping : List (String × String)) :
    ∀ (df : List Event) (acc : List GapEntry),
      (acc.map GapEntry.scenario).Nodup →
      (((df.foldl (tallyStep mapping) acc)).map GapEntry.scenario).Nodup := by
  intro df
  induction df with
  | nil => intro acc h; simpa using h
  | cons e df ih =>
    intro acc hacc
    rw [List.foldl_cons]
    apply ih
    rw [tallyStep]
    by_cases hu : alistGet mapping e.scenario = none
    · rw [if_pos hu, bump_scenarios]
      by_cases hs : e.scenario ∈ acc.map GapEntry.scenario
      · rw [if_pos hs]; exact hacc
      · rw [if_neg hs]
        rw [List.nodup_append]
        exact ⟨hacc, List.nodup_singleton _, by
          intro x hx hx'
          rcases List.mem_singleton.1 hx' with rfl
          exact hs hx⟩
    · rw [if_neg hu]; exact hacc

theorem mem_bump : ∀ {acc : List GapEntry} {s f : String} {g : GapEntry},
    g ∈ bump acc s f → g ∈ acc ∨ g.scenario = s ∨ ∃ h ∈ acc, g.scenario = h.scenario := by
  intro acc
  induction acc with
  | nil =>
    intro s f g h
    rcases List.mem_singleton.1 (by simpa [bump] using h) with rfl
    exact Or.inr (Or.inl rfl)
  | cons h gs ih =>
    intro s f g hmem
    by_cases hg : h.scenario = s
    · rw [bump, if_pos hg] at hmem
      rcases List.mem_cons.1 hmem with rfl | hmem
      · exact Or.inr (Or.inr ⟨h, List.mem_cons_self _ _, rfl⟩)
      · exact Or.inl (List.mem_cons_of_mem _ hmem)
    · rw [bump, if_neg hg] at hmem
      rcases List.mem_cons.1 hmem with rfl | hmem
      · exact Or.inl (List.mem_cons_self _ _)
      · rcases ih hmem with h' | h' | ⟨h', hh', hs⟩
        · exact Or.inl (List.mem_cons_of_mem _ h')
        · exact Or.inr (Or.inl h')
        · exact Or.inr (Or.inr ⟨h', List.mem_cons_of_mem _ hh', hs⟩)

theorem unmapped_of_mem_foldl (mapping : List (String × String)) :
    ∀ (df : List Event) (acc : List GapEntry),
      (∀ g ∈ acc, alistGet mapping g.scenario = none) →
      ∀ g ∈ df.foldl (tallyStep mapping) acc,
        alistGet mapping g.scenario = none := by
  intro df
  induction df with
  | nil => intro acc h; simpa using h
  | cons e df ih =>
    intro acc hacc
    rw [List.foldl_cons]
    apply ih
    intro g hg
    rw [tallyStep] at hg
    by_cases hu : alistGet mapping e.scenario = none
    · rw [if_pos hu] at hg
      rcases mem_bump hg with h | h | ⟨h', hh', hs⟩
      · exact hacc g h
      · rw [h]; exact hu
      · rw [hs]; exact hacc h' hh'
    · rw [if_neg hu] at hg
      exact hacc g hg

/-! ### Stable descending sort lemmas -/

theorem perm_insertDesc (a : GapEntry) :
    ∀ l : List GapEntry, List.Perm (insertDesc a l) (a :: l) := by
  intro l
  induction l with
  | nil => exact List.Perm.refl _
  | cons b bs ih =>
    rw [insertDesc]
    by_cases hb : a.count < b.count
    · rw [if_pos hb]
      exact (List.Perm.cons b ih).trans (List.Perm.swap a b bs)
    · rw [if_neg hb]

theorem perm_sortDesc : ∀ l : List GapEntry, List.Perm (sortDesc l) l := by
  intro l
  induction l with
  | nil => exact List.Perm.refl _
  | cons x xs ih =>
    have h : sortDesc (x :: xs) = insertDesc x (sortDesc xs) := rfl
    rw [h]
    exact (perm_insertDesc x (sortDesc xs)).trans (List.Perm.cons x ih)

theorem pairwise_insertDesc {a : GapEntry} {l : List GapEntry}
    (h : l.Pairwise (fun x y => y.count ≤ x.count)) :
    (insertDesc a l).Pairwise (fun x y => y.count ≤ x.count) := by
  induction l with
  | nil => simp [insertDesc]
  | cons b bs ih =>
    rw [insertDesc]
    rcases List.pairwise_cons.1 h with ⟨hb, hbs⟩
    by_cases hab : a.count < b.count
    · rw [if_pos hab]
      refine List.pairwise_cons.2 ⟨?_, ih hbs⟩
      intro x hx
      rcases List.mem_cons.1 ((perm_insertDesc a bs).mem_iff.1 hx) with rfl | h
      · exact le_of_lt hab
      · exact hb x h
    · rw [if_neg hab]
      refine List.pairwise_cons.2 ⟨?_, h⟩
      intro x hx
      rcases List.mem_cons.1 hx with rfl | hx
      · exact not_lt.1 hab
      · exact le_trans (hb x hx) (not_lt.1 hab)

theorem pairwise_sortDesc : ∀ l : List GapEntry,
    (sortDesc l).Pairwise (fun x y => y.count ≤ x.count) := by
  intro l
  induction l with
  | nil => simp [sortDesc]
  | cons x xs ih => exact pairwise_insertDesc ih

/-! ### Concrete fixtures used by witnesses and counterexamples -/

/-- A superseding one-hour event (100 lux scene). -/
def evA3 : Event :=
  { club := "Club A", facility := "Park", lighting := "North 100 lux"
    scenario := "Park - North 100 lux", turnOn := 0, turnOff := 3600
    ratedPowerKw := 167/100, costPerKwh := none, redundantPeriods := [] }

/-- A subsumed event overlapping `evA3` by 1800 seconds. -/
def evB3 : Event :=
  { club := "Club A", facility := "Park", lighting := "North 50 lux"
    scenario := "Park - North 50 lux", turnOn := 1800, turnOff := 5400
    ratedPowerKw := 6/5, costPerKwh := none, redundantPeriods := [] }

/-- A subsumed event merely touching `evA3` (starts when `evA3` ends). -/
def evC3 : Event :=
  { club := "Club A", facility := "Park", lighting := "North 50 lux"
    scenario := "Park - North 50 lux", turnOn := 3600, turnOff := 7200
    ratedPowerKw := 6/5, costPerKwh := none, redundantPeriods := [] }

/-- The composite rule: the 100 lux scene includes the 50 lux scene. -/
def rules3 : List (String × List String) :=
  [("Park - North 100 lux", ["Park - North 50 lux"])]

/-- The redundant period marked on `evB3` by `rules3`. -/
def periodB3 : Period :=
  ⟨1800, 3600, "Included in Park - North 100 lux"⟩

/-- `evB3` after overlap resolution against `evA3`. -/
def evB3marked : Event := { evB3 with redundantPeriods := [periodB3] }

/-- An event doubly covered by two redundant periods (total 60 min,
redundant 120 min): the pathological negative-billable case. -/
def ev9 : Event :=
  { club := "Club A", facility := "Park", lighting := "North 50 lux"
    scenario := "Park - North 50 lux", turnOn := 0, turnOff := 3600
    ratedPowerKw := 6/5, costPerKwh := none
    redundantPeriods := [⟨0, 3600, "Included in Park - North 100 lux"⟩,
                         ⟨0, 3600, "Included in Park - East 100 lux"⟩] }

/-- An event whose `Cost/kWh` cell failed numeric coercion (NaN). -/
def evRateNaN : Event :=
  { club := "C", facility := "F", lighting := "L", scenario := "F - L"
    turnOn := 0, turnOff := 3600, ratedPowerKw := 1
    costPerKwh := some (coerceRate "abc"), redundantPeriods := [] }

/-- An event whose `Cost/kWh` cell parsed successfully. -/
def evRateParsed : Event :=
  { club := "C", facility := "F", lighting := "L", scenario := "F - L"
    turnOn := 0, turnOff := 3600, ratedPowerKw := 1
    costPerKwh := some (coerceRate "$2"), redundantPeriods := [] }

/-- An event from a file with no `Cost/kWh` column at all. -/
def evRateAbsent : Event :=
  { club := "C", facility := "F", lighting := "L", scenario := "F - L"
    turnOn := 0, turnOff := 3600, ratedPowerKw := 1
    costPerKwh := none, redundantPeriods := [] }

/-- A 100-second event (5/3 minutes) at 60 kW: rounding its minutes before
the cost computation visibly changes the cost. -/
def ev4 : Event :=
  { club := "C", facility := "F", lighting := "L", scenario := "F - L"
    turnOn := 0, turnOff := 100, ratedPowerKw := 60
    costPerKwh := none, redundantPeriods := [] }

/-- A data row of a CSV file (cells of the line after the header). -/
def dataRow10 : List String :=
  ["Club A", "Park", "North 50 lux", "01/09/2025 18:00:00",
   "01/09/2025 19:00:00", "1.2"]

/-- A file whose first line is the header row itself, duplicated on the
second line, followed by one data row. -/
def file10 : List (List String) :=
  [required_columns, required_columns, dataRow10]

/-! ### Claim theorems -/

/-- Evaluation of the overlap resolver on the concrete pair
`evA3`, `evB3`: only `evB3` receives the overlap period. -/
theorem detect3_eval :
    detect_overlapping_scenarios rules3 [evA3, evB3] = [evA3, evB3marked] := by
  norm_num [detect_overlapping_scenarios, detectGo, markEvent, contribsGo,
    contribution, includesOf, alistGet, evA3, evB3, evB3marked, periodB3, rules3]
  decide

/-- C6: after overlap resolution every redundant period `p` of an event
satisfies `turnOn ≤ p.start < p.stop ≤ turnOff`, and two events whose
intervals merely touch produce no redundant period at all. -/
theorem c6_redundant_period_invariant (rules : List (String × List String)) :
    (∀ es : List Event, (∀ e ∈ es, e.redundantPeriods = []) →
      ∀ e' ∈ detect_overlapping_scenarios rules es,
        ∀ p ∈ e'.redundantPeriods,
          e'.turnOn ≤ p.start ∧ p.start < p.stop ∧ p.stop ≤ e'.turnOff)
    ∧ (∀ A B : Event, A.redundantPeriods = [] → B.redundantPeriods = [] →
        A.turnOff = B.turnOn →
        detect_overlapping_scenarios rules [A, B] = [A, B]) := by
  constructor
  · intro es hemp e' he' p hp
    obtain ⟨j, o, ho, rfl⟩ := mem_detectGo he'
    have hper : (markEvent rules es j o).redundantPeriods
        = contribsGo rules j o es 0 := by
      rw [markEvent]
      simp [hemp o ho]
    rw [hper] at hp
    obtain ⟨e, hc⟩ := mem_contribsGo hp
    exact contribution_bounds hc
  · intro A B hA hB htouch
    have h1 : contribution rules A B = none :=
      contribution_touching (Or.inl htouch)
    have h2 : contribution rules B A = none :=
      contribution_touching (Or.inr htouch)
    simp [detect_overlapping_scenarios, detectGo, markEvent, contribsGo,
      h1, h2, hA, hB]
    exact ⟨by rw [← hA], by rw [← hB]⟩

/-- Witness for C6 at concrete inputs: the invariant holds for the period
marked on `evB3`, and the touching pair `evA3`, `evC3` is left unmarked. -/
theorem c6_redundant_period_invariant_witness :
    (evB3marked.turnOn ≤ periodB3.start ∧ periodB3.start < periodB3.stop
      ∧ periodB3.stop ≤ evB3marked.turnOff)
    ∧ detect_overlapping_scenarios rules3 [evA3, evC3] = [evA3, evC3] :=
  ⟨(c6_redundant_period_invariant rules3).1 [evA3, evB3]
      (by intro e he; simp only [List.mem_cons, List.mem_singleton] at he
          rcases he with rfl | rfl | he
          · rfl
          · rfl
          · simp at he)
      evB3marked (by rw [detect3_eval]; simp) periodB3 (by simp [evB3marked]),
   (c6_redundant_period_invariant rules3).2 evA3 evC3 rfl rfl rfl⟩

/-- C9: with a non-empty redundant list the calculator returns
`round(total - sum of redundant)` with no clamping (strictly negative
whenever the redundant total exceeds the session by more than half a
minute), and the value flows into the summary duration as is. -/
theorem c9_negative_billable (e : Event) (h : e.redundantPeriods ≠ []) :
    (calculate_billable_duration e).1
        = pyRound (totalDurationMin e - redundantMin e)
    ∧ (totalDurationMin e - redundantMin e < -(1/2) →
        (calculate_billable_duration e).1 < 0)
    ∧ ∀ (ov : Option ℚ) (d : ℤ) (c a : String),
        (create_combined_summary ov d c a [e]).duration
          = (calculate_billable_duration e).1 := by
  refine ⟨?_, ?_, ?_⟩
  · rw [calculate_billable_duration, if_neg h]
  · intro hneg
    rw [calculate_billable_duration, if_neg h]
    exact pyRound_neg_of_lt hneg
  · intro ov d c a
    simp [create_combined_summary]

/-- Witness for C9: the doubly covered event `ev9` is billed
`round(60 - 120) = -60` minutes, strictly negative, and its summary
duration is that same negative figure. -/
theorem c9_negative_billable_witness :
    ev9.redundantPeriods ≠ []
    ∧ (calculate_billable_duration ev9).1
        = pyRound (totalDurationMin ev9 - redundantMin ev9)
    ∧ (calculate_billable_duration ev9).1 < 0
    ∧ (create_combined_summary none 0 "Club A" "Park" [ev9]).duration
        = (calculate_billable_duration ev9).1 := by
  have h := c9_negative_billable ev9 (by decide)
  exact ⟨by decide, h.1,
    h.2.1 (by norm_num [totalDurationMin, redundantMin, periodMin, ev9]),
    h.2.2 none 0 "Club A" "Park"⟩

/-- C2 (code bug): the override tier and the parsed per-row tier behave as
specified, and the fixed fallback applies when the `Cost/kWh` column is
absent; but an unparseable per-row value (NaN after coercion) is found by
`event.get('Cost/kWh', 0.263)` because the key exists, so the event is
billed at NaN rather than at the documented fallback rate, and its cost
(hence its summary total) is NaN. -/
theorem c2_rate_fallback_bug :
    coerceRate "abc" = none
    ∧ effectiveRate (some (1/2)) evRateNaN = some (1/2)
    ∧ effectiveRate none evRateParsed = some 2
    ∧ effectiveRate none evRateAbsent = some (263/1000)
    ∧ effectiveRate none evRateNaN = none
    ∧ perEventCost none evRateNaN = none
    ∧ (create_combined_summary none 0 "C" "F" [evRateNaN]).totalCost = none :=
  ⟨rfl, rfl, rfl, rfl, rfl, rfl, rfl⟩

/-- C7 counterexample: the derived scenario key keeps surrounding
whitespace of the lighting label (the source strips hyphens, not
whitespace), so it differs from the whitespace-trimmed key the claim
describes. -/
theorem c7_scenario_key_counterexample :
    (normalizeRow "C" "F" " L " 0 3600 1 none).scenario = "F -  L "
    ∧ (normalizeRow "C" "F" " L " 0 3600 1 none).scenario
        ≠ "F" ++ " - " ++ specTrimWhitespace " L " := by
  exact ⟨by decide, by decide⟩

/-- C7 amended: the scenario key is the facility, the literal separator,
and the lighting label with surrounding hyphen characters (not whitespace)
stripped; this key is the one looked up in the scenario-to-area mapping. -/
theorem c7_scenario_key_amended (club facility lighting : String)
    (turnOn turnOff power : ℚ) (rateCell : Option String)
    (mapping : List (String × String)) :
    (normalizeRow club facility lighting turnOn turnOff power rateCell).scenario
      = facility ++ " - " ++ stripChars ['-'] lighting
    ∧ areaOf mapping (normalizeRow club facility lighting turnOn turnOff power rateCell)
      = (alistGet mapping
          (facility ++ " - " ++ stripChars ['-'] lighting)).getD facility :=
  ⟨rfl, rfl⟩

/-- C10 counterexample: a file whose first physical line is the header row,
duplicated on the second line, passes the column validation (the skipped
first line is never inspected), so parsing does not fail with the
missing-required-columns error; the real pipeline fails later, at
timestamp parsing, with the date-format error instead. -/
theorem c10_header_skip_counterexample :
    readAndValidate file10 = .ok (required_columns, [dataRow10]) := rfl

/-- C10 amended: the parser always discards the first physical line and
reads the column names from the second line; whenever the second line
lacks at least one required column name, parsing fails with the
missing-columns validation error listing exactly the absent columns, even
when the first line contains every required column. -/
theorem c10_header_skip_amended (l1 l2 : List String)
    (rest : List (List String))
    (_hfirst : ∀ c ∈ required_columns, c ∈ l1)
    (hmiss : ∃ c ∈ required_columns, ¬ c ∈ l2) :
    readAndValidate (l1 :: l2 :: rest)
      = .error (.missingColumns
          (required_columns.filter (fun c => ¬ l2.contains c))) := by
  rw [readAndValidate]
  have hne : required_columns.filter (fun c => ¬ l2.contains c) ≠ [] := by
    obtain ⟨c, hc, hcl⟩ := hmiss
    intro hnil
    have hmem : c ∈ required_columns.filter (fun c => ¬ l2.contains c) :=
      List.mem_filter.2 ⟨hc, by simpa using hcl⟩
    rw [hnil] at hmem
    simp at hmem
  rw [if_pos hne]

/-- Witness for C10 at a concrete file: the header is on the first line,
the second line is a data row missing every required column name, and
parsing aborts with the missing-columns error. -/
theorem c10_header_skip_witness :
    (∀ c ∈ required_columns, c ∈ required_columns)
    ∧ (∃ c ∈ required_columns, ¬ c ∈ dataRow10)
    ∧ readAndValidate [required_columns, dataRow10]
      = .error (.missingColumns
          (required_columns.filter (fun c => ¬ dataRow10.contains c))) :=
  ⟨fun _ hc => hc, ⟨"Club", by decide, by decide⟩,
   c10_header_skip_amended required_columns dataRow10 []
     (fun _ hc => hc) ⟨"Club", by decide, by decide⟩⟩

/-- C4 counterexample: the 100-second event `ev4` (5/3 minutes) is billed
from its rounded 2 billable minutes, giving cost 2.00; computing the cost
from the un-rounded 5/3 minutes as the claim states would give 1.67. -/
theorem c4_rounding_counterexample :
    perEventCost (some 1) ev4 = some 2
    ∧ perEventCost (some 1) ev4
        ≠ some (round2 (totalDurationMin ev4 / 60 * ev4.ratedPowerKw * 1)) := by
  have hb : (calculate_billable_duration ev4).1 = 2 := by
    rw [calculate_billable_duration,
      if_pos (show ev4.redundantPeriods = [] from rfl)]
    norm_num [totalDurationMin, ev4, pyRound]
  have hcost : perEventCost (some 1) ev4 = some 2 := by
    simp only [perEventCost, effectiveRate, hb]
    norm_num [ev4, round2, pyRound]
  refine ⟨hcost, ?_⟩
  rw [hcost]
  intro hcontra
  rw [show totalDurationMin ev4 = 5/3 by norm_num [totalDurationMin, ev4]] at hcontra
  rw [show ev4.ratedPowerKw = 60 from rfl] at hcontra
  rw [show (5/3 : ℚ)/60 * 60 * 1 = 5/3 by norm_num] at hcontra
  rw [show round2 (5/3 : ℚ) = 167/100 by norm_num [round2, pyRound]] at hcontra
  norm_num at hcontra

/-- C4 amended: for every event the duration arithmetic is fractional
inside the calculator, but both returned figures are rounded to whole
minutes on return: billable = `round(total - sum of redundant minutes)`
(with an empty redundant list this is `round(total)`), redundant =
`round(sum of redundant minutes)`, and the cost is computed from the
already-rounded billable minutes (then rounded to 2 decimals). -/
theorem c4_rounding_amended (e : Event) :
    (calculate_billable_duration e).1
        = pyRound (totalDurationMin e - redundantMin e)
    ∧ (calculate_billable_duration e).2.1 = pyRound (redundantMin e)
    ∧ ∀ (override : Option ℚ) (r : ℚ), effectiveRate override e = some r →
        perEventCost override e
          = some (round2 ((pyRound (totalDurationMin e - redundantMin e) : ℚ)
              / 60 * e.ratedPowerKw * r)) := by
  have hpair : (calculate_billable_duration e).1
      = pyRound (totalDurationMin e - redundantMin e)
      ∧ (calculate_billable_duration e).2.1 = pyRound (redundantMin e) := by
    by_cases hper : e.redundantPeriods = []
    · have hred : redundantMin e = 0 := by
        rw [redundantMin, hper]
        rfl
      constructor
      · rw [calculate_billable_duration, if_pos hper, hred, sub_zero]
      · rw [calculate_billable_duration, if_pos hper, hred,
          show (0:ℚ) = ((0:ℤ):ℚ) by norm_num, pyRound_intCast]
    · rw [calculate_billable_duration, if_neg hper]
      exact ⟨rfl, rfl⟩
  refine ⟨hpair.1, hpair.2, ?_⟩
  intro override r hrate
  simp only [perEventCost, hrate, hpair.1]

/-- Witness for C4 at the doubly covered event `ev9` (a non-empty
redundant list, so the subtraction path is exercised) with an override
rate of 1. -/
theorem c4_rounding_amended_witness :
    ev9.redundantPeriods ≠ []
    ∧ effectiveRate (some 1) ev9 = some 1
    ∧ (calculate_billable_duration ev9).1
        = pyRound (totalDurationMin ev9 - redundantMin ev9)
    ∧ (calculate_billable_duration ev9).2.1 = pyRound (redundantMin ev9)
    ∧ perEventCost (some 1) ev9
        = some (round2 ((pyRound (totalDurationMin ev9 - redundantMin ev9) : ℚ)
            / 60 * ev9.ratedPowerKw * 1)) :=
  ⟨by decide, rfl, (c4_rounding_amended ev9).1, (c4_rounding_amended ev9).2.1,
   (c4_rounding_amended ev9).2.2 (some 1) 1 rfl⟩

/-- C3: in a group where the rule of `A` includes `B`, the ranges overlap
by exactly `kz` whole minutes, and no other event contributes a redundant
period to `B`, the billable minutes of `B` after overlap resolution equal
its total `tz` minutes minus `kz`. -/
theorem c3_overlap_subtraction (rules : List (String × List String))
    (es : List Event) (iA iB : ℕ) (A B : Event) (tz kz : ℤ)
    (hiA : iA < es.length) (hiB : iB < es.length) (hne : iA ≠ iB)
    (hgA : es.get ⟨iA, hiA⟩ = A) (hgB : es.get ⟨iB, hiB⟩ = B)
    (hBempty : B.redundantPeriods = [])
    (hrule : B.scenario ∈ includesOf rules A.scenario)
    (hk : (min A.turnOff B.turnOff - max A.turnOn B.turnOn) / 60 = (kz : ℚ))
    (hkpos : 0 < kz)
    (ht : (B.turnOff - B.turnOn) / 60 = (tz : ℚ))
    (hothers : ∀ (i : ℕ) (hi : i < es.length), i ≠ iA → i ≠ iB →
      contribution rules (es.get ⟨i, hi⟩) B = none)
    (hB' : iB < (detect_overlapping_scenarios rules es).length) :
    (calculate_billable_duration
        ((detect_overlapping_scenarios rules es).get ⟨iB, hB'⟩)).1
      = tz - kz := by
  have hkq : (0 : ℚ) < (kz : ℚ) := by exact_mod_cast hkpos
  have hkmul : min A.turnOff B.turnOff - max A.turnOn B.turnOn
      = (kz : ℚ) * 60 := by
    rw [div_eq_iff (by norm_num : (60:ℚ) ≠ 0)] at hk
    exact hk
  have hov : max A.turnOn B.turnOn < min A.turnOff B.turnOff := by
    nlinarith
  have hcA : contribution rules A B
      = some ⟨max A.turnOn B.turnOn, min A.turnOff B.turnOff,
              "Included in " ++ A.scenario⟩ := by
    rw [contribution, if_pos hrule, if_pos hov]
  have hcontribs : contribsGo rules iB B es 0
      = [⟨max A.turnOn B.turnOn, min A.turnOff B.turnOff,
          "Included in " ++ A.scenario⟩] := by
    apply contribsGo_eq_single es 0 (by omega) (by simpa using hiA) hne
    · intro h
      have hfin : (⟨iA - 0, h⟩ : Fin es.length) = ⟨iA, hiA⟩ :=
        Fin.ext (Nat.sub_zero iA)
      rw [hfin, hgA]
      exact hcA
    · intro m h hmA hmB
      exact hothers m h (by omega) (by omega)
  have hget : (detect_overlapping_scenarios rules es).get ⟨iB, hB'⟩
      = markEvent rules es iB B := by
    rw [detect_get rules es iB hiB hB', hgB]
  have hmark : markEvent rules es iB B
      = { B with redundantPeriods :=
          [⟨max A.turnOn B.turnOn, min A.turnOff B.turnOff,
            "Included in " ++ A.scenario⟩] } := by
    rw [markEvent, hcontribs, hBempty]
    rfl
  rw [hget, hmark, calculate_billable_duration, if_neg (by simp)]
  have htot : totalDurationMin { B with redundantPeriods :=
      [⟨max A.turnOn B.turnOn, min A.turnOff B.turnOff,
        "Included in " ++ A.scenario⟩] } = (tz : ℚ) := ht
  have hred : redundantMin { B with redundantPeriods :=
      [⟨max A.turnOn B.turnOn, min A.turnOff B.turnOff,
        "Included in " ++ A.scenario⟩] } = (kz : ℚ) := by
    rw [redundantMin]
    simp only [List.map_cons, List.map_nil, List.sum_cons, List.sum_nil,
      add_zero, periodMin]
    exact hk
  rw [htot, hred,
    show (tz : ℚ) - (kz : ℚ) = ((tz - kz : ℤ) : ℚ) by push_cast; ring,
    pyRound_intCast]

/-- Witness for C3: in the two-event group `evA3`, `evB3` with `rules3`,
the overlap is exactly 30 minutes of the 60-minute session of `evB3`, and
its billable minutes come out as 60 - 30 = 30. -/
theorem c3_overlap_subtraction_witness :
    (calculate_billable_duration
        ((detect_overlapping_scenarios rules3 [evA3, evB3]).get
          ⟨1, by rw [detect_length]; norm_num⟩)).1 = 30 := by
  have h := c3_overlap_subtraction rules3 [evA3, evB3] 0 1 evA3 evB3 60 30
    (by norm_num) (by norm_num) (by norm_num) rfl rfl rfl
    (by decide)
    (by norm_num [evA3, evB3])
    (by norm_num)
    (by norm_num [evA3, evB3])
    (by intro i hi h0 h1; simp at hi; omega)
    (by rw [detect_length]; norm_num)
  rw [show (60 : ℤ) - 30 = 30 by norm_num] at h
  exact h

/-! ### Facility attribution and stable tie order of the gap report -/

/-- The insertion-ordered tally the row loop of `find_unmapped_scenarios`
builds before sorting (the Python dict in insertion order: unmapped
scenario keys in order of first occurrence). -/
def unmappedTally (mapping : List (String × String)) (df : List Event) :
    List GapEntry :=
  df.foldl (tallyStep mapping) []

/-- Facility recorded for scenario `s` in a tally state. -/
def facOf : List GapEntry → String → Option String
  | [], _ => none
  | g :: gs, s => if g.scenario = s then some g.facility else facOf gs s

theorem fac_bump_self (acc : List GapEntry) (s f : String) :
    facOf (bump acc s f) s = some ((facOf acc s).getD f) := by
  induction acc with
  | nil => simp [bump, facOf]
  | cons g gs ih =>
    by_cases hg : g.scenario = s
    · simp [bump, facOf, hg]
    · simp [bump, facOf, hg, ih]

theorem fac_bump_other (acc : List GapEntry) (s f s' : String)
    (h : s' ≠ s) : facOf (bump acc s f) s' = facOf acc s' := by
  induction acc with
  | nil =>
    have hh : facOf (bump [] s f) s' = if s = s' then some f else none := rfl
    rw [hh, if_neg (fun he => h he.symm)]
    rfl
  | cons g gs ih =>
    by_cases hg : g.scenario = s
    · have hne : ¬ g.scenario = s' := fun hh => h (hh.symm.trans hg)
      rw [bump, if_pos hg, facOf, if_neg hne, facOf, if_neg hne]
    · rw [bump, if_neg hg, facOf, facOf]
      by_cases hgs : g.scenario = s'
      · rw [if_pos hgs, if_pos hgs]
      · rw [if_neg hgs, if_neg hgs, ih]

theorem fac_foldl (mapping : List (String × String)) :
    ∀ (df : List Event) (acc : List GapEntry) (s : String),
      alistGet mapping s = none →
      (facOf acc s = none →
        facOf (df.foldl (tallyStep mapping) acc) s
          = (df.find? (fun e => e.scenario = s)).map Event.facility)
      ∧ ∀ f, facOf acc s = some f →
        facOf (df.foldl (tallyStep mapping) acc) s = some f := by
  intro df
  induction df with
  | nil =>
    intro acc s _
    exact ⟨fun h0 => by simpa using h0, fun f hf => by simpa using hf⟩
  | cons e df ih =>
    intro acc s hs
    rw [List.foldl_cons]
    by_cases hes : e.scenario = s
    · have hstep : tallyStep mapping acc e = bump acc e.scenario e.facility := by
        rw [tallyStep, if_pos (by rw [hes]; exact hs)]
      have hfind : List.find? (fun x => decide (x.scenario = s)) (e :: df)
          = some e := List.find?_cons_of_pos _ (by simpa using hes)
      constructor
      · intro h0
        have hb : facOf (tallyStep mapping acc e) s = some e.facility := by
          rw [hstep, hes, fac_bump_self, h0]
          rfl
        have hrest := (ih (tallyStep mapping acc e) s hs).2 e.facility hb
        rw [hrest, hfind]
        rfl
      · intro f hf
        have hb : facOf (tallyStep mapping acc e) s = some f := by
          rw [hstep, hes, fac_bump_self, hf]
          rfl
        exact (ih _ s hs).2 f hb
    · have hstep : facOf (tallyStep mapping acc e) s = facOf acc s := by
        rw [tallyStep]
        by_cases hu : alistGet mapping e.scenario = none
        · rw [if_pos hu]
          exact fac_bump_other acc e.scenario e.facility s
            (fun hh => hes hh.symm)
        · rw [if_neg hu]
      have hfind : List.find? (fun x => decide (x.scenario = s)) (e :: df)
          = List.find? (fun x => decide (x.scenario = s)) df :=
        List.find?_cons_of_neg _ (by simpa using hes)
      constructor
      · intro h0
        rw [hfind]
        exact (ih _ s hs).1 (by rw [hstep]; exact h0)
      · intro f hf
        exact (ih _ s hs).2 f (by rw [hstep]; exact hf)

theorem fac_of_mem : ∀ {l : List GapEntry} {g : GapEntry},
    (l.map GapEntry.scenario).Nodup → g ∈ l →
      facOf l g.scenario = some g.facility := by
  intro l
  induction l with
  | nil => intro g _ h; simp at h
  | cons h gs ih =>
    intro g hnd hmem
    rcases List.mem_cons.1 hmem with rfl | hmem
    · rw [facOf, if_pos rfl]
    · have hne : h.scenario ≠ g.scenario := by
        intro heq
        have : g.scenario ∈ gs.map GapEntry.scenario :=
          List.mem_map.2 ⟨g, hmem, rfl⟩
        rw [← heq] at this
        exact (List.nodup_cons.1 (by simpa using hnd)).1 this
      rw [facOf, if_neg hne]
      exact ih (List.nodup_cons.1 (by simpa using hnd)).2 hmem

theorem bump_count_pos {acc : List GapEntry} (hacc : ∀ g ∈ acc, 0 < g.count)
    (s f : String) : ∀ g ∈ bump acc s f, 0 < g.count := by
  induction acc with
  | nil =>
    intro g hg
    rcases List.mem_singleton.1 (by simpa [bump] using hg) with rfl
    norm_num
  | cons h gs ih =>
    intro g hg
    by_cases hgs : h.scenario = s
    · rw [bump, if_pos hgs] at hg
      rcases List.mem_cons.1 hg with rfl | hg
      · have := hacc h (List.mem_cons_self _ _)
        simp
      · exact hacc g (List.mem_cons_of_mem _ hg)
    · rw [bump, if_neg hgs] at hg
      rcases List.mem_cons.1 hg with rfl | hg
      · exact hacc g (List.mem_cons_self _ _)
      · exact ih (fun x hx => hacc x (List.mem_cons_of_mem _ hx)) g hg

theorem count_pos_of_mem_foldl (mapping : List (String × String)) :
    ∀ (df : List Event) (acc : List GapEntry),
      (∀ g ∈ acc, 0 < g.count) →
      ∀ g ∈ df.foldl (tallyStep mapping) acc, 0 < g.count := by
  intro df
  induction df with
  | nil => intro acc h; simpa using h
  | cons e df ih =>
    intro acc hacc
    rw [List.foldl_cons]
    apply ih
    intro g hg
    rw [tallyStep] at hg
    by_cases hu : alistGet mapping e.scenario = none
    · rw [if_pos hu] at hg
      exact bump_count_pos hacc e.scenario e.facility g hg
    · rw [if_neg hu] at hg
      exact hacc g hg

theorem filter_count_insertDesc (a : GapEntry) (c : ℕ) :
    ∀ l : List GapEntry,
      (insertDesc a l).filter (fun g => g.count = c)
        = if a.count = c then a :: l.filter (fun g => g.count = c)
          else l.filter (fun g => g.count = c) := by
  intro l
  induction l with
  | nil =>
    by_cases hc : a.count = c
    · rw [if_pos hc]
      simp [insertDesc, hc]
    · rw [if_neg hc]
      simp [insertDesc, hc]
  | cons b bs ih =>
    rw [insertDesc]
    by_cases hb : a.count < b.count
    · rw [if_pos hb]
      by_cases hbc : b.count = c
      · by_cases hc : a.count = c
        · exact absurd (hc.trans hbc.symm) (Nat.ne_of_lt hb)
        · rw [List.filter_cons_of_pos (by simpa using hbc), ih, if_neg hc,
            if_neg hc, List.filter_cons_of_pos (by simpa using hbc)]
      · rw [List.filter_cons_of_neg (by simpa using hbc), ih,
          List.filter_cons_of_neg (by simpa using hbc)]
    · rw [if_neg hb]
      by_cases hc : a.count = c
      · rw [if_pos hc, List.filter_cons_of_pos (by simpa using hc)]
      · rw [if_neg hc, List.filter_cons_of_neg (by simpa using hc)]

theorem filter_count_sortDesc (c : ℕ) : ∀ l : List GapEntry,
    (sortDesc l).filter (fun g => g.count = c)
      = l.filter (fun g => g.count = c) := by
  intro l
  induction l with
  | nil => rfl
  | cons x xs ih =>
    have h : sortDesc (x :: xs) = insertDesc x (sortDesc xs) := rfl
    rw [h, filter_count_insertDesc, ih]
    by_cases hc : x.count = c
    · rw [if_pos hc, List.filter_cons_of_pos (by simpa using hc)]
    · rw [if_neg hc, List.filter_cons_of_neg (by simpa using hc)]

theorem firstDedupAux_congr {α : Type} [DecidableEq α] (l : List α) :
    ∀ (s1 s2 : List α), (∀ x, x ∈ s1 ↔ x ∈ s2) →
      firstDedupAux s1 l = firstDedupAux s2 l := by
  induction l with
  | nil => intro s1 s2 _; rfl
  | cons a l ih =>
    intro s1 s2 h
    rw [firstDedupAux, firstDedupAux]
    by_cases ha : a ∈ s1
    · rw [if_pos ha, if_pos ((h a).1 ha)]
      exact ih s1 s2 h
    · rw [if_neg ha, if_neg (fun hh => ha ((h a).2 hh))]
      congr 1
      apply ih
      intro x
      simp [h x]

theorem tally_scenarios (mapping : List (String × String)) :
    ∀ (df : List Event) (acc : List GapEntry),
      (df.foldl (tallyStep mapping) acc).map GapEntry.scenario
        = acc.map GapEntry.scenario
          ++ firstDedupAux (acc.map GapEntry.scenario)
              ((df.filter (fun e => alistGet mapping e.scenario = none)).map
                Event.scenario) := by
  intro df
  induction df with
  | nil => intro acc; simp [firstDedupAux]
  | cons e df ih =>
    intro acc
    rw [List.foldl_cons]
    by_cases hu : alistGet mapping e.scenario = none
    · rw [List.filter_cons_of_pos (by simpa using hu), List.map_cons,
        show tallyStep mapping acc e = bump acc e.scenario e.facility from
          by rw [tallyStep, if_pos hu],
        ih (bump acc e.scenario e.facility), bump_scenarios]
      by_cases hs : e.scenario ∈ acc.map GapEntry.scenario
      · rw [if_pos hs, firstDedupAux, if_pos hs]
      · rw [if_neg hs, firstDedupAux, if_neg hs,
          firstDedupAux_congr _
            (acc.map GapEntry.scenario ++ [e.scenario])
            (e.scenario :: acc.map GapEntry.scenario)
            (by intro x; simp [or_comm])]
        simp
    · rw [List.filter_cons_of_neg (by simpa using hu),
        show tallyStep mapping acc e = acc from by rw [tallyStep, if_neg hu]]
      exact ih acc

theorem unmappedTally_scenarios (mapping : List (String × String))
    (df : List Event) :
    (unmappedTally mapping df).map GapEntry.scenario
      = firstDedup ((df.filter
          (fun e => alistGet mapping e.scenario = none)).map Event.scenario) := by
  show (df.foldl (tallyStep mapping) []).map GapEntry.scenario = _
  rw [tally_scenarios mapping df []]
  rfl

theorem find_unmapped_stable (mapping : List (String × String))
    (df : List Event) (c : ℕ) :
    (find_unmapped_scenarios mapping df).filter (fun g => g.count = c)
      = (unmappedTally mapping df).filter (fun g => g.count = c) :=
  filter_count_sortDesc c _

theorem find_unmapped_first_facility (mapping : List (String × String))
    (df : List Event) :
    ∀ g ∈ find_unmapped_scenarios mapping df,
      (df.find? (fun e => e.scenario = g.scenario)).map Event.facility
        = some g.facility := by
  intro g hg
  have hmem : g ∈ df.foldl (tallyStep mapping) [] :=
    (perm_sortDesc _).mem_iff.1 hg
  have hu := unmapped_of_mem_foldl mapping df [] (by simp) g hmem
  have hnd := scenarios_nodup_foldl mapping df [] (by simp)
  have h1 := fac_of_mem hnd hmem
  have h2 := (fac_foldl mapping df [] g.scenario hu).1 rfl
  rw [h1] at h2
  exact h2.symm

/-! ### Assembled properties of the mapping-gap report -/

theorem find_unmapped_nodup (mapping : List (String × String))
    (df : List Event) :
    ((find_unmapped_scenarios mapping df).map GapEntry.scenario).Nodup := by
  have htnd := scenarios_nodup_foldl mapping df [] (by simp)
  exact ((perm_sortDesc _).map GapEntry.scenario).nodup_iff.mpr htnd

theorem find_unmapped_counts (mapping : List (String × String))
    (df : List Event) :
    ∀ g ∈ find_unmapped_scenarios mapping df,
      alistGet mapping g.scenario = none
      ∧ g.count = (df.filter (fun e => e.scenario = g.scenario)).length
      ∧ 0 < g.count := by
  intro g hg
  have hmem : g ∈ df.foldl (tallyStep mapping) [] :=
    (perm_sortDesc _).mem_iff.1 hg
  have hu := unmapped_of_mem_foldl mapping df [] (by simp) g hmem
  refine ⟨hu, ?_, ?_⟩
  · have hnd := scenarios_nodup_foldl mapping df [] (by simp)
    have h1 := cnt_of_mem hnd hmem
    have h2 := cnt_foldl mapping df [] g.scenario hu
    rw [h1, show cnt [] g.scenario = 0 from rfl, Nat.zero_add] at h2
    exact h2
  · exact count_pos_of_mem_foldl mapping df [] (by simp) g hmem

theorem find_unmapped_complete (mapping : List (String × String))
    (df : List Event) :
    ∀ e ∈ df, alistGet mapping e.scenario = none →
      ∃ g ∈ find_unmapped_scenarios mapping df, g.scenario = e.scenario := by
  intro e he hu
  have h2 := cnt_foldl mapping df [] e.scenario hu
  have hlen : (df.filter (fun x => x.scenario = e.scenario)).length ≠ 0 := by
    have hm : e ∈ df.filter (fun x => x.scenario = e.scenario) :=
      List.mem_filter.2 ⟨he, by simp⟩
    intro h0
    rw [List.length_eq_zero] at h0
    rw [h0] at hm
    simp at hm
  have hcnt : cnt (df.foldl (tallyStep mapping) []) e.scenario ≠ 0 := by
    rw [h2, show cnt [] e.scenario = 0 from rfl, Nat.zero_add]
    exact hlen
  obtain ⟨g, hg, hs⟩ := cnt_pos_mem _ _ hcnt
  exact ⟨g, (perm_sortDesc _).mem_iff.2 hg, hs⟩

/-- C8 amended: the gap report has one entry per distinct unmapped
scenario key; each entry carries a positive occurrence count equal to the
number of rows with its key and the facility of the first such row; the
entries are sorted by descending count; and ties keep first-appearance
order: filtering the report at any fixed count yields the corresponding
slice of the insertion-ordered tally, whose keys are exactly the unmapped
scenarios in order of first occurrence.  Together these determine the
report completely, so its key/count content depends only on the row
multiset; the list itself still follows input order at equal counts. -/
theorem c8_gap_detection_amended (mapping : List (String × String))
    (df : List Event) :
    ((find_unmapped_scenarios mapping df).map GapEntry.scenario).Nodup
    ∧ (∀ g ∈ find_unmapped_scenarios mapping df,
        alistGet mapping g.scenario = none
        ∧ g.count = (df.filter (fun e => e.scenario = g.scenario)).length
        ∧ 0 < g.count)
    ∧ (∀ e ∈ df, alistGet mapping e.scenario = none →
        ∃ g ∈ find_unmapped_scenarios mapping df, g.scenario = e.scenario)
    ∧ (find_unmapped_scenarios mapping df).Pairwise
        (fun x y => y.count ≤ x.count)
    ∧ (∀ g ∈ find_unmapped_scenarios mapping df,
        (df.find? (fun e => e.scenario = g.scenario)).map Event.facility
          = some g.facility)
    ∧ (∀ c : ℕ,
        (find_unmapped_scenarios mapping df).filter (fun g => g.count = c)
          = (unmappedTally mapping df).filter (fun g => g.count = c))
    ∧ (unmappedTally mapping df).map GapEntry.scenario
        = firstDedup ((df.filter
            (fun e => alistGet mapping e.scenario = none)).map
          Event.scenario) :=
  ⟨find_unmapped_nodup mapping df, find_unmapped_counts mapping df,
   find_unmapped_complete mapping df, pairwise_sortDesc _,
   find_unmapped_first_facility mapping df, find_unmapped_stable mapping df,
   unmappedTally_scenarios mapping df⟩

/-- An unmapped event at facility FA. -/
def evG1 : Event :=
  { club := "Club A", facility := "FA", lighting := "X", scenario := "FA - X"
    turnOn := 0, turnOff := 3600, ratedPowerKw := 1
    costPerKwh := none, redundantPeriods := [] }

/-- An unmapped event at facility FB. -/
def evG2 : Event :=
  { club := "Club A", facility := "FB", lighting := "Y", scenario := "FB - Y"
    turnOn := 0, turnOff := 3600, ratedPowerKw := 1
    costPerKwh := none, redundantPeriods := [] }

/-- C8 counterexample: two unmapped scenarios with equal counts keep their
input order through the stable sort, so swapping the two rows swaps the
two report entries: the result is not independent of the row order. -/
theorem c8_gap_detection_counterexample :
    find_unmapped_scenarios [] [evG1, evG2]
      ≠ find_unmapped_scenarios [] [evG2, evG1] := by decide

/-- Witness for C8 at a concrete table: dedupd, sorted, the entry of the
key FA - X carries a positive count 1 (its number of occurrences) and the
facility of its first occurrence, equal-count entries match the tally
slice, and the tally keys are the unmapped scenarios in first-occurrence
order. -/
theorem c8_gap_detection_witness :
    evG1 ∈ [evG1, evG2]
    ∧ alistGet ([] : List (String × String)) evG1.scenario = none
    ∧ ((find_unmapped_scenarios [] [evG1, evG2]).map GapEntry.scenario).Nodup
    ∧ (find_unmapped_scenarios [] [evG1, evG2]).Pairwise
        (fun x y => y.count ≤ x.count)
    ∧ alistGet ([] : List (String × String))
        (GapEntry.mk "FA - X" "FA" 1).scenario = none
    ∧ (GapEntry.mk "FA - X" "FA" 1).count
        = ([evG1, evG2].filter
            (fun e => e.scenario = (GapEntry.mk "FA - X" "FA" 1).scenario)).length
    ∧ 0 < (GapEntry.mk "FA - X" "FA" 1).count
    ∧ ([evG1, evG2].find?
        (fun e => e.scenario = (GapEntry.mk "FA - X" "FA" 1).scenario)).map
          Event.facility = some (GapEntry.mk "FA - X" "FA" 1).facility
    ∧ (find_unmapped_scenarios [] [evG1, evG2]).filter (fun g => g.count = 1)
        = (unmappedTally [] [evG1, evG2]).filter (fun g => g.count = 1)
    ∧ (unmappedTally [] [evG1, evG2]).map GapEntry.scenario
        = firstDedup (([evG1, evG2].filter
            (fun e => alistGet ([] : List (String × String)) e.scenario
              = none)).map Event.scenario) :=
  ⟨List.mem_cons_self _ _, rfl,
   (c8_gap_detection_amended [] [evG1, evG2]).1,
   (c8_gap_detection_amended [] [evG1, evG2]).2.2.2.1,
   ((c8_gap_detection_amended [] [evG1, evG2]).2.1
     (GapEntry.mk "FA - X" "FA" 1) (by decide)).1,
   ((c8_gap_detection_amended [] [evG1, evG2]).2.1
     (GapEntry.mk "FA - X" "FA" 1) (by decide)).2.1,
   ((c8_gap_detection_amended [] [evG1, evG2]).2.1
     (GapEntry.mk "FA - X" "FA" 1) (by decide)).2.2,
   (c8_gap_detection_amended [] [evG1, evG2]).2.2.2.2.1
     (GapEntry.mk "FA - X" "FA" 1) (by decide),
   (c8_gap_detection_amended [] [evG1, evG2]).2.2.2.2.2.1 1,
   (c8_gap_detection_amended [] [evG1, evG2]).2.2.2.2.2.2⟩

/-- A mapping that does not contain the scenario of `evC1`. -/
def mappingC1 : List (String × String) := [("Known - Scenario", "Area 1")]

/-- An event whose scenario key is absent from `mappingC1`. -/
def evC1 : Event :=
  { club := "Club A", facility := "FacilityX", lighting := "X"
    scenario := "FacilityX - X", turnOn := 0, turnOff := 3600
    ratedPowerKw := 1, costPerKwh := none, redundantPeriods := [] }

/-- C1 counterexample: with an unmapped scenario present, the engine does
return a non-empty structured gap list, but `generate_daily_summaries`
does not refuse: invoked on the same table it still produces a summary,
billing the event under its facility name as the default area.  The
refusal before aggregation lives in the caller, not in the engine. -/
theorem c1_refusal_counterexample :
    find_unmapped_scenarios mappingC1 [evC1] ≠ []
    ∧ generate_daily_summaries none mappingC1 [] [evC1] ≠ []
    ∧ (generate_daily_summaries none mappingC1 [] [evC1]).map Summary.area
        = ["FacilityX"] := by
  have hmap : (generate_daily_summaries none mappingC1 [] [evC1]).map
      Summary.area = ["FacilityX"] := by
    norm_num [generate_daily_summaries, firstDedup, firstDedupAux, rowKey,
      dateOf, detect_overlapping_scenarios, detectGo, markEvent, contribsGo,
      contribution, includesOf, alistGet, areaOf, create_combined_summary,
      evC1, mappingC1]
    decide
  refine ⟨by decide, ?_, hmap⟩
  intro hnil
  rw [hnil] at hmap
  simp at hmap

/-- C1 amended: while an unmapped scenario exists the engine surfaces the
structured gap list through `find_unmapped_scenarios` (and the caller is
the one that must refuse to aggregate); `generate_daily_summaries` itself
does not refuse, and bills any unmapped event under its facility name as
the default area. -/
theorem c1_refusal_amended (override : Option ℚ)
    (mapping : List (String × String))
    (rules : List (String × List String)) (df : List Event) (e : Event)
    (he : e ∈ df) (hu : alistGet mapping e.scenario = none) :
    find_unmapped_scenarios mapping df ≠ []
    ∧ ∃ s ∈ generate_daily_summaries override mapping rules df,
        s.area = e.facility := by
  constructor
  · obtain ⟨g, hg, _⟩ := find_unmapped_complete mapping df e he hu
    intro hnil
    rw [hnil] at hg
    simp at hg
  · have hkmem : rowKey e ∈ firstDedup (df.map rowKey) :=
      mem_firstDedup.2 (List.mem_map.2 ⟨e, he, rfl⟩)
    have hegroup : e ∈ df.filter (fun x => rowKey x = rowKey e) :=
      List.mem_filter.2 ⟨he, by simp⟩
    have harea : areaOf mapping e = e.facility := by
      rw [areaOf, hu]
      rfl
    have hmap : areaOf mapping e ∈ (detect_overlapping_scenarios rules
        (df.filter (fun x => rowKey x = rowKey e))).map (areaOf mapping) := by
      rw [map_areaOf_detect]
      exact List.mem_map.2 ⟨e, hegroup, rfl⟩
    have hareas : areaOf mapping e
        ∈ firstDedup ((detect_overlapping_scenarios rules
            (df.filter (fun x => rowKey x = rowKey e))).map (areaOf mapping)) :=
      mem_firstDedup.2 hmap
    refine ⟨create_combined_summary override (rowKey e).1 (rowKey e).2
      (areaOf mapping e)
      ((detect_overlapping_scenarios rules
          (df.filter (fun x => rowKey x = rowKey e))).filter
        (fun x => areaOf mapping x = areaOf mapping e)), ?_, ?_⟩
    · rw [generate_daily_summaries]
      exact List.mem_flatMap.2 ⟨rowKey e, hkmem,
        List.mem_map.2 ⟨areaOf mapping e, hareas, rfl⟩⟩
    · exact harea

/-- Witness for C1 at the concrete table: the gap list is non-empty and a
summary billed under the facility name exists. -/
theorem c1_refusal_amended_witness :
    evC1 ∈ [evC1]
    ∧ alistGet mappingC1 evC1.scenario = none
    ∧ (find_unmapped_scenarios mappingC1 [evC1] ≠ []
      ∧ ∃ s ∈ generate_daily_summaries none mappingC1 [] [evC1],
          s.area = evC1.facility) :=
  ⟨List.mem_cons_self _ _, rfl,
   c1_refusal_amended none mappingC1 [] [evC1] evC1
     (List.mem_cons_self _ _) rfl⟩

/-- Within one (date, club) group, summing the rounded bucket totals over
the deduplicated areas recovers the sum of the per-event costs: rounding a
sum of hundredths is the identity and the area buckets partition the
group. -/
theorem group_cost_conservation (override : Option ℚ)
    (mapping : List (String × String)) (d : ℤ) (c : String)
    (events : List Event) :
    nsum (((firstDedup (events.map (areaOf mapping))).map (fun a =>
        create_combined_summary override d c a
          (events.filter (fun x => areaOf mapping x = a)))).map
      Summary.totalCost)
      = nsum (events.map (perEventCost override)) := by
  rw [List.map_map]
  have hstep : ∀ a ∈ firstDedup (events.map (areaOf mapping)),
      (Summary.totalCost ∘ fun a => create_combined_summary override d c a
          (events.filter (fun x => areaOf mapping x = a))) a
        = nsum ((events.filter (fun x => areaOf mapping x = a)).map
            (perEventCost override)) := by
    intro a _
    show nround2 (nsum ((events.filter (fun x => areaOf mapping x = a)).map
        (perEventCost override))) = _
    exact nround2_isHundredth (isHundredth_nsum (by
      intro x hx
      obtain ⟨e0, _, rfl⟩ := List.mem_map.1 hx
      exact isHundredth_perEventCost override e0))
  rw [List.map_congr_left hstep]
  exact nsum_partition (areaOf mapping) (perEventCost override) events _
    (nodup_firstDedup _)
    (fun x hx => mem_firstDedup.2 (List.mem_map.2 ⟨x, hx, rfl⟩))

/-- C5: the sum of the total costs over all produced daily summaries
equals the sum over every processed event of its per-event cost; the
grouping and area bucketing neither lose nor duplicate any cost. -/
theorem c5_cost_conservation (override : Option ℚ)
    (mapping : List (String × String))
    (rules : List (String × List String)) (df : List Event) :
    nsum ((generate_daily_summaries override mapping rules df).map
        Summary.totalCost)
      = nsum ((processedEvents rules df).map (perEventCost override)) := by
  rw [generate_daily_summaries, processedEvents]
  suffices H : ∀ ks : List (ℤ × String),
      nsum ((ks.flatMap (fun k =>
          (firstDedup ((detect_overlapping_scenarios rules
              (df.filter (fun e => rowKey e = k))).map (areaOf mapping))).map
            (fun a => create_combined_summary override k.1 k.2 a
              ((detect_overlapping_scenarios rules
                  (df.filter (fun e => rowKey e = k))).filter
                (fun e => areaOf mapping e = a))))).map Summary.totalCost)
        = nsum ((ks.flatMap (fun k => detect_overlapping_scenarios rules
            (df.filter (fun e => rowKey e = k)))).map
          (perEventCost override)) by
    exact H _
  intro ks
  induction ks with
  | nil => rfl
  | cons k ks ih =>
    rw [List.flatMap_cons, List.flatMap_cons, List.map_append,
      List.map_append, nsum_append, nsum_append, ih]
    congr 1
    exact group_cost_conservation override mapping k.1 k.2
      (detect_overlapping_scenarios rules (df.filter (fun e => rowKey e = k)))
